import Mathlib

/-!
Verification development for the PDF-Master application (`src/project.py`).

The file shallowly embeds the parts of the program that the specification's
claims are about:

* the page-reorder algorithm shared by `ThumbnailWidget.move_page` and
  `PDFApp._move_page` (the four `insert_pdf` copy loops), modelled as a pure
  function `movePage` on the document's page list;
* the move-history state (`move_history`, `history_index`) and the operations
  `add_to_move_history`, `undo_page`, `redo_page`, `close_pdf`,
  `_load_and_display_pdf`, plus the full `move_page` flow (validate, rebuild,
  record), modelled as functions on an explicit `AppState`;
* the split range parser and validation of `PDFApp.split_pdf`.

Python `int` indices that can be `-1` (the history cursor) are modelled as
`Int`; page lists are plain Lean lists (one abstract element per page).
External effects (building, saving, atomically replacing the file, reloading)
are collapsed into an `ok : Bool` parameter: `ok = true` is the run where
every library/filesystem call succeeds, `ok = false` the run where one of
them raises and the surrounding `except` handler fires.
-/

namespace PDFMaster

/-! ### Page reorder engine (`PDFApp._move_page`, `ThumbnailWidget.move_page`)

`copyRange l a b` is the page sequence produced by the loop
`for i in range(a, b): new_pdf.insert_pdf(current_pdf, from_page=i, to_page=i)`:
pages `a, a+1, ..., b-1` of `l`. -/

def copyRange (l : List α) (a b : Nat) : List α :=
  (l.drop a).take (b - a)

/-- The page rearrangement computed by `_move_page` after its `-1` conversion:
`s` and `t` are 0-based.  Forward branch (`target > source`): pages `[0,s)`,
then pages `[s+1, t+1)` (loop `for i in range(source, target)` copying page
`i+1`), then page `s`, then pages `[t+1, n)`.  Backward branch: pages `[0,t)`,
then page `s`, then pages `[t, s)`, then pages `[s+1, n)`. -/
def movePage (l : List α) (s t : Nat) : List α :=
  if t > s then
    copyRange l 0 s ++ copyRange l (s + 1) (t + 1) ++
      copyRange l s (s + 1) ++ copyRange l (t + 1) l.length
  else
    copyRange l 0 t ++ copyRange l s (s + 1) ++
      copyRange l t s ++ copyRange l (s + 1) l.length

/-! ### Session state and move history -/

/-- Python list slice `l[:k]` for an `int` bound `k` (negative bounds count
from the end, clamped at 0). -/
def pyTake (l : List β) (k : Int) : List β :=
  if 0 ≤ k then l.take k.toNat else l.take ((l.length : Int) + k).toNat

/-- Python indexing `l[i]` for an `int` index (negative indices count from the
end); `none` models the `IndexError`. -/
def pyGet (l : List β) (i : Int) : Option β :=
  let j := if i < 0 then (l.length : Int) + i else i
  if j < 0 then none else l.get? j.toNat

/-- The fields of `PDFApp` state that the reorder/undo/redo claims are about:
`current_pdf` (`none` models Python `None`, `some pages` an open document),
`move_history` and `history_index`. -/
structure AppState (α : Type) where
  current_pdf : Option (List α)
  move_history : List (Nat × Nat)
  history_index : Int
deriving Repr, DecidableEq

/-- `PDFApp._init_state`: `current_pdf = None`, `move_history = []`,
`history_index = -1`. -/
def init_state (α : Type) : AppState α :=
  { current_pdf := none, move_history := [], history_index := -1 }

/-- `PDFApp.add_to_move_history` acting on the `(move_history, history_index)`
pair: truncate forward entries if the cursor is not at the end, append the new
record, set the cursor to the last index. -/
def add_to_move_history (h : List (Nat × Nat)) (i : Int) (s t : Nat) :
    List (Nat × Nat) × Int :=
  let h1 := if i < (h.length : Int) - 1 then pyTake h (i + 1) else h
  let h2 := h1 ++ [(s, t)]
  (h2, (h2.length : Int) - 1)

/-- `ThumbnailWidget.move_page` after the text parse, with 0-based indices `s`
and `t` as produced by `int(...) - 1` (hence `Int`): validate the pair, return
unchanged on `source == target`, rebuild the document with `movePage` and
record the move with `add_to_move_history` when everything succeeds (`ok`),
and leave the history untouched when the build/save/replace raises. -/
def move_page (st : AppState α) (s t : Int) (ok : Bool) : AppState α :=
  match st.current_pdf with
  | none => st
  | some pg =>
    if s < 0 ∨ s ≥ (pg.length : Int) ∨ t < 0 ∨ t ≥ (pg.length : Int) then st
    else if s = t then st
    else if ok then
      let r := add_to_move_history st.move_history st.history_index s.toNat t.toNat
      { st with current_pdf := some (movePage pg s.toNat t.toNat),
                move_history := r.1, history_index := r.2 }
    else st

/-- `PDFApp.undo_page`: guarded by an open document and `history_index >= 0`;
reads the record at the cursor, applies the swapped move
(`_move_page(target + 1, source + 1)`), and only then decrements the cursor,
so a raising `_move_page` (`ok = false`) leaves the state unchanged. -/
def undo_page (st : AppState α) (ok : Bool) : AppState α :=
  match st.current_pdf with
  | none => st
  | some pg =>
    if st.history_index < 0 then st
    else
      match pyGet st.move_history st.history_index with
      | none => st
      | some (s, t) =>
        if ok then
          { st with current_pdf := some (movePage pg t s),
                    history_index := st.history_index - 1 }
        else st

/-- `PDFApp.redo_page`: guarded by an open document and
`history_index >= len(move_history) - 1`; increments the cursor FIRST, then
reads the record and replays it, so a raising `_move_page` (`ok = false`)
leaves the incremented cursor behind. -/
def redo_page (st : AppState α) (ok : Bool) : AppState α :=
  match st.current_pdf with
  | none => st
  | some pg =>
    if st.history_index ≥ (st.move_history.length : Int) - 1 then st
    else
      match pyGet st.move_history (st.history_index + 1) with
      | none => { st with history_index := st.history_index + 1 }
      | some (s, t) =>
        if ok then
          { st with current_pdf := some (movePage pg s t),
                    history_index := st.history_index + 1 }
        else { st with history_index := st.history_index + 1 }

/-- `PDFApp.close_pdf`: clears views and zoom and closes the document
(`current_pdf = None`); it does not touch `move_history` or `history_index`. -/
def close_pdf (st : AppState α) : AppState α :=
  { st with current_pdf := none }

/-- `PDFApp._load_and_display_pdf`: `close_pdf()` then open the new document;
`move_history` and `history_index` are not touched. -/
def load_and_display_pdf (st : AppState α) (doc : List α) : AppState α :=
  { close_pdf st with current_pdf := some doc }

/-! ### Split range parser and validation (`PDFApp.split_pdf`)

The Python code works on strings with `str.split` on the single-character
separators `";"`, `","` and `"-"`, `str.strip`, and the builtin `int`.  These
are modelled on `List Char` (a Lean `String` is converted with `toList`). -/

/-- Python `text.split(c)` for a single-character separator: `"".split(c)` is
`[""]`, and empty fields are kept. -/
def splitChar (c : Char) : List Char → List (List Char)
  | [] => [[]]
  | a :: rest =>
    match splitChar c rest with
    | [] => if a = c then [[], []] else [[a]]
    | g :: gs => if a = c then [] :: g :: gs else (a :: g) :: gs

/-- Python `text.strip()`: drop leading and trailing whitespace. -/
def pyStrip (l : List Char) : List Char :=
  ((l.dropWhile Char.isWhitespace).reverse.dropWhile Char.isWhitespace).reverse

/-- Python `int(text)`: strip whitespace, optional single sign, then a
non-empty run of decimal digits; `none` models the `ValueError`. -/
def pyInt (l : List Char) : Option Int :=
  let t := pyStrip l
  let p : Int × List Char :=
    match t with
    | '-' :: rest => (-1, rest)
    | '+' :: rest => (1, rest)
    | _ => (1, t)
  if p.2 ≠ [] ∧ p.2.all Char.isDigit then
    some (p.1 * (p.2.foldl (fun acc c => 10 * acc + (c.toNat - '0'.toNat)) (0 : Nat) : Nat))
  else none

/-- Python `range(lo, hi)` as a list of `Int`. -/
def intRange (lo hi : Int) : List Int :=
  (List.range (hi - lo).toNat).map fun k => lo + k

/-- Python `sorted(set(l))` for a set built by accumulating the elements of
`l`: the distinct elements in ascending order. -/
def sortedSet (l : List Int) : List Int :=
  List.insertionSort (· ≤ ·) l.dedup

/-- One segment of a split group: after `strip`, either an inclusive
1-based range `start-end` (contributing the 0-based indices
`range(start - 1, end)`) or a single 1-based page number (contributing
`int(segment) - 1`).  `none` models the `ValueError` from `int` or from
unpacking `segment.split("-")` into two names. -/
def parseItem (seg : List Char) : Option (List Int) :=
  let s := pyStrip seg
  if s.contains '-' then
    match splitChar '-' s with
    | [a, b] =>
      match pyInt a, pyInt b with
      | some start, some stop => some (intRange (start - 1) stop)
      | _, _ => none
    | _ => none
  else
    (pyInt s).map fun n => [n - 1]

/-- The `for segment in segments` loop: accumulate each segment's pages into
the group's set, failing if any segment fails. -/
def parseItems : List (List Char) → Option (List Int)
  | [] => some []
  | sgm :: rest =>
    match parseItem sgm, parseItems rest with
    | some xs, some ys => some (xs ++ ys)
    | _, _ => none

/-- One `;`-separated part: split on `,`, parse every segment into the
running set, and emit `sorted(pages)`. -/
def parseGroup (part : List Char) : Option (List Int) :=
  (parseItems (splitChar ',' part)).map sortedSet

/-- The `for part in parts` loop of `split_pdf`: one group per `;`-separated
part. -/
def parseGroupList : List (List Char) → Option (List (List Int))
  | [] => some []
  | p :: ps =>
    match parseGroup p, parseGroupList ps with
    | some g, some gs => some (g :: gs)
    | _, _ => none

/-- Parse a whole (already stripped) range-spec text. -/
def parseGroups (t : List Char) : Option (List (List Int)) :=
  parseGroupList (splitChar ';' t)

/-- Outcome of `PDFApp.split_pdf` up to the point where output files start to
be written: `emptyInput` is the "Please enter page ranges" warning,
`invalidInput` the "Please enter valid page numbers" warning (parse error or
out-of-range page), and `ok groups` means validation passed and one output
file per group (holding exactly the group's 0-based pages, in order) is
written. -/
inductive SplitResult where
  | emptyInput : SplitResult
  | invalidInput : SplitResult
  | ok : List (List Int) → SplitResult
deriving Repr, DecidableEq

/-- `PDFApp.split_pdf` on a document with `numPages` pages and input text
`txt`: strip, reject empty input, parse the groups, then reject the whole
request if any referenced index `p` has `p < 0` or `p >= numPages` — all
before any output file is written. -/
def split_pdf (numPages : Nat) (txt : String) : SplitResult :=
  let t := pyStrip txt.toList
  if t = [] then .emptyInput
  else
    match parseGroups t with
    | none => .invalidInput
    | some gs =>
      if gs.flatten.any (fun p => decide (p < 0) || decide ((numPages : Int) ≤ p)) then
        .invalidInput
      else .ok gs

/-! ### List-level facts about the reorder algorithm -/

theorem insertIdx_eq_take_cons_drop (a : α) :
    ∀ (i : Nat) (m : List α), i ≤ m.length → m.insertIdx i a = m.take i ++ a :: m.drop i := by
  intro i
  induction i with
  | zero => intro m _; simp
  | succ i ih =>
    intro m hm
    cases m with
    | nil => simp at hm
    | cons b m =>
      simp only [List.insertIdx_succ_cons, List.take_succ_cons, List.drop_succ_cons,
        List.cons_append]
      rw [ih m (by simpa using hm)]

/-- Splitting a list at an in-range index: prefix, the element there, suffix. -/
theorem take_cons_drop_eq (l : List α) (s : Nat) (h : s < l.length) :
    l.take s ++ l.get ⟨s, h⟩ :: l.drop (s + 1) = l := by
  have h1 : l.drop s = l.get ⟨s, h⟩ :: l.drop (s + 1) := by
    rw [List.drop_eq_getElem_cons h]
    simp
  rw [← h1, List.take_append_drop]

/-- The four copy loops of `_move_page` produce exactly "remove the page at
`source`, reinsert it at `target`". -/
theorem movePage_eq_eraseIdx_insertIdx (l : List α) (s t : Nat)
    (hs : s < l.length) (ht : t < l.length) :
    movePage l s t = (l.eraseIdx s).insertIdx t (l.get ⟨s, hs⟩) := by
  have hts : (l.take s).length = s := by simp; omega
  have herase : (l.eraseIdx s).length = l.length - 1 := List.length_eraseIdx_of_lt hs
  have ht' : t ≤ (l.eraseIdx s).length := by omega
  rw [insertIdx_eq_take_cons_drop _ t _ ht', List.eraseIdx_eq_take_drop_succ,
    List.take_append_eq_append_take, List.drop_append_eq_append_drop, List.take_take, hts]
  have e3 : copyRange l s (s + 1) = [l.get ⟨s, hs⟩] := by
    have h1 : l.drop s = l.get ⟨s, hs⟩ :: l.drop (s + 1) := by
      rw [List.drop_eq_getElem_cons hs]
      simp
    have h2 : s + 1 - s = 1 := by omega
    rw [copyRange, h2, h1]
    rfl
  by_cases h : t > s
  · have hmin : min t s = s := by omega
    have hdt : (l.take s).drop t = [] := by
      apply List.drop_eq_nil_of_le
      omega
    rw [hmin, hdt, List.drop_drop]
    have harith : s + 1 + (t - s) = t + 1 := by omega
    rw [harith]
    have e1 : copyRange l 0 s = l.take s := by simp [copyRange]
    have e2 : copyRange l (s + 1) (t + 1) = (l.drop (s + 1)).take (t - s) := by
      simp only [copyRange, Nat.succ_sub_succ]
    have e4 : copyRange l (t + 1) l.length = l.drop (t + 1) := by
      apply List.take_of_length_le
      simp
    rw [movePage, if_pos h, e1, e2, e3, e4]
    simp
  · have hle : t ≤ s := by omega
    have hmin : min t s = t := by omega
    have hts0 : t - s = 0 := by omega
    rw [hmin, hts0, List.drop_take]
    have e1 : copyRange l 0 t = l.take t := by simp [copyRange]
    have e2 : copyRange l t s = (l.drop t).take (s - t) := by simp [copyRange]
    have e4 : copyRange l (s + 1) l.length = l.drop (s + 1) := by
      apply List.take_of_length_le
      simp
    rw [movePage, if_neg h, e1, e2, e3, e4]
    simp

theorem insertIdx_get_eraseIdx (l : List α) (s : Nat) (h : s < l.length) :
    (l.eraseIdx s).insertIdx s (l.get ⟨s, h⟩) = l := by
  have herase : (l.eraseIdx s).length = l.length - 1 := List.length_eraseIdx_of_lt h
  have hs' : s ≤ (l.eraseIdx s).length := by omega
  have hts : (l.take s).length = s := by simp; omega
  rw [insertIdx_eq_take_cons_drop _ s _ hs', List.eraseIdx_eq_take_drop_succ,
    List.take_append_eq_append_take, List.drop_append_eq_append_drop, List.take_take, hts]
  have hdt : (l.take s).drop s = [] := by
    apply List.drop_eq_nil_of_le
    omega
  simp only [Nat.min_self, Nat.sub_self, List.take_zero, List.drop_zero, hdt,
    List.append_nil, List.nil_append]
  exact take_cons_drop_eq l s h

theorem insertIdx_perm_cons (a : α) :
    ∀ (i : Nat) (m : List α), i ≤ m.length → (m.insertIdx i a).Perm (a :: m) := by
  intro i
  induction i with
  | zero => intro m _; simp
  | succ i ih =>
    intro m hm
    cases m with
    | nil => simp at hm
    | cons b m =>
      rw [List.insertIdx_succ_cons]
      exact ((ih m (by simpa using hm)).cons b).trans (List.Perm.swap a b m)

theorem perm_get_cons_eraseIdx :
    ∀ (l : List α) (s : Nat) (h : s < l.length), l.Perm (l.get ⟨s, h⟩ :: l.eraseIdx s) := by
  intro l
  induction l with
  | nil => intro s h; simp at h
  | cons a l ih =>
    intro s h
    cases s with
    | zero => simp
    | succ s =>
      have hs : s < l.length := by simpa using h
      have h1 : (a :: l).Perm (a :: (l.get ⟨s, hs⟩ :: l.eraseIdx s)) := (ih s hs).cons a
      have h2 : (a :: (l.get ⟨s, hs⟩ :: l.eraseIdx s)).Perm
          (l.get ⟨s, hs⟩ :: a :: l.eraseIdx s) := List.Perm.swap _ _ _
      have h3 : (a :: l).get ⟨s + 1, h⟩ = l.get ⟨s, hs⟩ := by simp
      have h4 : (a :: l).eraseIdx (s + 1) = a :: l.eraseIdx s := rfl
      rw [h3, h4]
      exact h1.trans h2

theorem movePage_perm (l : List α) (s t : Nat) (hs : s < l.length) (ht : t < l.length) :
    (movePage l s t).Perm l := by
  have herase : (l.eraseIdx s).length = l.length - 1 := List.length_eraseIdx_of_lt hs
  rw [movePage_eq_eraseIdx_insertIdx l s t hs ht]
  exact (insertIdx_perm_cons _ t _ (by omega)).trans (perm_get_cons_eraseIdx l s hs).symm

theorem movePage_length (l : List α) (s t : Nat) (hs : s < l.length) (ht : t < l.length) :
    (movePage l s t).length = l.length :=
  (movePage_perm l s t hs ht).length_eq

/-- Applying the swapped move undoes the move. -/
theorem movePage_movePage (l : List α) (s t : Nat) (hs : s < l.length) (ht : t < l.length) :
    movePage (movePage l s t) t s = l := by
  have hlen := movePage_length l s t hs ht
  have hs1 : s < (movePage l s t).length := by omega
  have ht1 : t < (movePage l s t).length := by omega
  rw [movePage_eq_eraseIdx_insertIdx (movePage l s t) t s ht1 hs1]
  have herase : (l.eraseIdx s).length = l.length - 1 := List.length_eraseIdx_of_lt hs
  have ht' : t ≤ (l.eraseIdx s).length := by omega
  have hget : (movePage l s t).get ⟨t, ht1⟩ = l.get ⟨s, hs⟩ := by
    have key : ∀ (m : List α), m = (l.eraseIdx s).insertIdx t (l.get ⟨s, hs⟩) →
        ∀ (htm : t < m.length), m.get ⟨t, htm⟩ = l.get ⟨s, hs⟩ := by
      intro m hm
      subst hm
      intro htm
      simp only [List.get_eq_getElem]
      exact List.getElem_insertIdx_self (l.eraseIdx s) (l.get ⟨s, hs⟩) t ht'
    exact key _ (movePage_eq_eraseIdx_insertIdx l s t hs ht) ht1
  have hener : (movePage l s t).eraseIdx t = l.eraseIdx s := by
    rw [movePage_eq_eraseIdx_insertIdx l s t hs ht]
    exact List.eraseIdx_insertIdx t (l.eraseIdx s)
  rw [hget, hener]
  exact insertIdx_get_eraseIdx l s hs

/-! ### State-level facts -/

theorem pyGet_append_length (xs : List β) (a : β) :
    pyGet (xs ++ [a]) (xs.length : Int) = some a := by
  have h0 : ¬((xs.length : Int) < 0) := by omega
  simp only [pyGet, h0, if_false, if_neg h0, Int.toNat_natCast]
  rw [List.get?_eq_getElem?]
  simp

/-- A successful `move_page` on an open document with a valid, distinct pair:
rebuild the pages and record the move. -/
theorem move_page_ok (l : List α) (h : List (Nat × Nat)) (i : Int) (s t : Nat)
    (hs : s < l.length) (ht : t < l.length) (hst : s ≠ t) :
    move_page ⟨some l, h, i⟩ (s : Int) (t : Int) true =
      ⟨some (movePage l s t), (add_to_move_history h i s t).1,
        (add_to_move_history h i s t).2⟩ := by
  have hv : ¬((s : Int) < 0 ∨ (s : Int) ≥ (l.length : Int) ∨
      (t : Int) < 0 ∨ (t : Int) ≥ (l.length : Int)) := by
    omega
  have hne : ¬((s : Int) = (t : Int)) := fun hh => hst (by exact_mod_cast hh)
  simp only [move_page]
  rw [if_neg hv, if_neg hne, if_pos trivial]
  simp

theorem add_to_move_history_fst (h : List (Nat × Nat)) (i : Int) (s t : Nat) :
    (add_to_move_history h i s t).1 =
      (if i < (h.length : Int) - 1 then pyTake h (i + 1) else h) ++ [(s, t)] := rfl

theorem add_to_move_history_snd (h : List (Nat × Nat)) (i : Int) (s t : Nat) :
    (add_to_move_history h i s t).2 =
      ((add_to_move_history h i s t).1.length : Int) - 1 := rfl

-- scratch checks
example : movePage [10, 20, 30, 40] 0 2 = [20, 30, 10, 40] := by decide
example : movePage [10, 20, 30, 40] 3 1 = [10, 40, 20, 30] := by decide
example : movePage (movePage [10, 20, 30, 40] 1 3) 3 1 = [10, 20, 30, 40] := by decide
example : splitChar ';' "1,4;2-3".toList = ["1,4".toList, "2-3".toList] := by decide
example : pyInt " 12 ".toList = some 12 := by decide
example : parseGroups "1,4;2-3".toList = some [[0, 3], [1, 2]] := by decide
example : parseGroups "4,1,4".toList = some [[0, 3]] := by decide
example : split_pdf 3 "1-2;3" = .ok [[0, 1], [2]] := by decide
example : split_pdf 1 "1,2" = .invalidInput := by decide
example : split_pdf 2 "1,2" = .ok [[0, 1]] := by decide
example : parseItem "5-2".toList = some [] := by decide
example : split_pdf 10 "5-2" = .ok [[]] := by decide
example : split_pdf 2 "2-x" = .invalidInput := by decide
example : split_pdf 2 "" = .emptyInput := by decide

/-! ### History-state helper lemmas -/

/-- The cursor invariant of the move history: `-1 <= history_index` and
`history_index < max (len history) 1`. -/
def histInv (h : List (Nat × Nat)) (i : Int) : Prop :=
  -1 ≤ i ∧ i < max (h.length : Int) 1

theorem histInv_add (h : List (Nat × Nat)) (i : Int) (s t : Nat) :
    histInv (add_to_move_history h i s t).1 (add_to_move_history h i s t).2 := by
  unfold histInv
  rw [add_to_move_history_snd, add_to_move_history_fst]
  simp only [List.length_append, List.length_cons, List.length_nil]
  push_cast
  omega

theorem undo_page_false (st : AppState α) : undo_page st false = st := by
  obtain ⟨pdf, h, i⟩ := st
  cases pdf with
  | none => rfl
  | some pg =>
    simp only [undo_page]
    split
    · rfl
    · split
      · rfl
      · rfl

theorem move_page_false (st : AppState α) (s t : Int) : move_page st s t false = st := by
  obtain ⟨pdf, h, i⟩ := st
  cases pdf with
  | none => rfl
  | some pg =>
    simp only [move_page]
    split
    · rfl
    · split
      · rfl
      · rfl

theorem undo_page_move_history (st : AppState α) (ok : Bool) :
    (undo_page st ok).move_history = st.move_history := by
  obtain ⟨pdf, h, i⟩ := st
  cases pdf with
  | none => rfl
  | some pg =>
    simp only [undo_page]
    split
    · rfl
    · split
      · rfl
      · split
        · rfl
        · rfl

theorem redo_page_move_history (st : AppState α) (ok : Bool) :
    (redo_page st ok).move_history = st.move_history := by
  obtain ⟨pdf, h, i⟩ := st
  cases pdf with
  | none => rfl
  | some pg =>
    simp only [redo_page]
    split
    · rfl
    · split
      · rfl
      · split
        · rfl
        · rfl

theorem redo_page_history_index (st : AppState α) (ok : Bool) :
    (redo_page st ok).history_index = st.history_index ∨
    (redo_page st ok).history_index = st.history_index + 1 := by
  obtain ⟨pdf, h, i⟩ := st
  cases pdf with
  | none => exact Or.inl rfl
  | some pg =>
    simp only [redo_page]
    split
    · exact Or.inl rfl
    · split
      · exact Or.inr rfl
      · split
        · exact Or.inr rfl
        · exact Or.inr rfl

theorem move_page_move_history_cases (st : AppState α) (s t : Int) (ok : Bool) :
    (move_page st s t ok).move_history = st.move_history ∨
    (move_page st s t ok).move_history =
      (add_to_move_history st.move_history st.history_index s.toNat t.toNat).1 := by
  obtain ⟨pdf, h, i⟩ := st
  cases pdf with
  | none => exact Or.inl rfl
  | some pg =>
    simp only [move_page]
    split
    · exact Or.inl rfl
    · split
      · exact Or.inl rfl
      · split
        · exact Or.inr rfl
        · exact Or.inl rfl

theorem histInv_undo (st : AppState α) (ok : Bool)
    (hI : histInv st.move_history st.history_index) :
    histInv (undo_page st ok).move_history (undo_page st ok).history_index := by
  obtain ⟨pdf, h, i⟩ := st
  cases pdf with
  | none => exact hI
  | some pg =>
    simp only [undo_page]
    split
    · exact hI
    · rename_i hi
      split
      · exact hI
      · split
        · rename_i hok
          unfold histInv at hI ⊢
          simp only at hI ⊢
          omega
        · exact hI

theorem histInv_redo (st : AppState α) (ok : Bool)
    (hI : histInv st.move_history st.history_index) :
    histInv (redo_page st ok).move_history (redo_page st ok).history_index := by
  obtain ⟨pdf, h, i⟩ := st
  cases pdf with
  | none => exact hI
  | some pg =>
    simp only [redo_page]
    split
    · exact hI
    · rename_i hguard
      unfold histInv at hI ⊢
      split
      · simp only at hI ⊢
        omega
      · split
        · simp only at hI ⊢
          omega
        · simp only at hI ⊢
          omega

theorem histInv_move_page (st : AppState α) (s t : Int) (ok : Bool)
    (hI : histInv st.move_history st.history_index) :
    histInv (move_page st s t ok).move_history (move_page st s t ok).history_index := by
  obtain ⟨pdf, h, i⟩ := st
  cases pdf with
  | none => exact hI
  | some pg =>
    simp only [move_page]
    split
    · exact hI
    · split
      · exact hI
      · split
        · exact histInv_add h i s.toNat t.toNat
        · exact hI

/-! ### Claims -/

/-- Claim C1: for every open document and in-range pair `source != target`, the
reorder operation produces the page sequence obtained by removing the element
at `source` from the page list and reinserting it at `target` (the forward and
backward shift descriptions are exactly what erase-then-insert does). -/
theorem reorder_is_remove_reinsert (l : List α) (s t : Nat)
    (hs : s < l.length) (ht : t < l.length) (hst : s ≠ t) :
    movePage l s t = (l.eraseIdx s).insertIdx t (l.get ⟨s, hs⟩) :=
  movePage_eq_eraseIdx_insertIdx l s t hs ht

/-- Witness for C1 at the concrete document `[10, 20, 30, 40]`, moving page 1
to position 3. -/
theorem reorder_is_remove_reinsert_witness :
    movePage [10, 20, 30, 40] 1 3 =
      (([10, 20, 30, 40].eraseIdx 1).insertIdx 3 ([10, 20, 30, 40].get ⟨1, by decide⟩)) :=
  reorder_is_remove_reinsert [10, 20, 30, 40] 1 3 (by decide) (by decide) (by decide)

/-- Claim C2: `reorder(s, t)` followed by `reorder(t, s)` restores the
original page ordering, and `undo()` immediately after a successful
`applyMove(s, t)` (which replays the recorded move with swapped arguments)
restores the page ordering that existed before the `applyMove`. -/
theorem reorder_swap_is_inverse (l : List α) (h : List (Nat × Nat)) (i : Int)
    (s t : Nat) (hs : s < l.length) (ht : t < l.length) (hst : s ≠ t) :
    movePage (movePage l s t) t s = l ∧
    (undo_page (move_page ⟨some l, h, i⟩ (s : Int) (t : Int) true) true).current_pdf =
      some l := by
  refine ⟨movePage_movePage l s t hs ht, ?_⟩
  rw [move_page_ok l h i s t hs ht hst]
  have h2 : (add_to_move_history h i s t).1 =
      (if i < (h.length : Int) - 1 then pyTake h (i + 1) else h) ++ [(s, t)] := rfl
  set h1 := if i < (h.length : Int) - 1 then pyTake h (i + 1) else h with hh1
  have hlen : ((add_to_move_history h i s t).1.length : Int) = (h1.length : Int) + 1 := by
    rw [h2]
    simp
  have hidx : (add_to_move_history h i s t).2 = (h1.length : Int) := by
    rw [add_to_move_history_snd, hlen]
    omega
  have hneg : ¬((add_to_move_history h i s t).2 < 0) := by
    rw [hidx]
    omega
  simp only [undo_page, hneg, if_false, if_neg hneg]
  rw [hidx, h2, pyGet_append_length]
  simp [movePage_movePage l s t hs ht]

/-- Witness for C2 at the document `[10, 20, 30, 40]`, empty history, moving
page 1 to position 2 and undoing. -/
theorem reorder_swap_is_inverse_witness :
    movePage (movePage [10, 20, 30, 40] 1 2) 2 1 = [10, 20, 30, 40] ∧
    (undo_page (move_page ⟨some [10, 20, 30, 40], [], -1⟩ (1 : Int) (2 : Int) true)
        true).current_pdf = some [10, 20, 30, 40] :=
  reorder_swap_is_inverse [10, 20, 30, 40] [] (-1) 1 2 (by decide) (by decide) (by decide)

/-- Claim C9: for every open document and in-range pair `source != target`,
the reorder preserves the page count and is a permutation of the original
pages (each original page appears exactly once), which in particular keeps
previously recorded history indices in range for undo/redo replay. -/
theorem reorder_preserves_page_multiset (l : List α) (s t : Nat)
    (hs : s < l.length) (ht : t < l.length) (hst : s ≠ t) :
    (movePage l s t).length = l.length ∧ (movePage l s t).Perm l :=
  ⟨movePage_length l s t hs ht, movePage_perm l s t hs ht⟩

/-- Witness for C9 at the concrete document `[10, 20, 30, 40]`, moving page 0
to position 2. -/
theorem reorder_preserves_page_multiset_witness :
    (movePage [10, 20, 30, 40] 0 2).length = ([10, 20, 30, 40] : List Nat).length ∧
    (movePage [10, 20, 30, 40] 0 2).Perm [10, 20, 30, 40] :=
  reorder_preserves_page_multiset [10, 20, 30, 40] 0 2 (by decide) (by decide) (by decide)

/-- Claim C3 counterexample: a failing redo does NOT leave the cursor where it
was.  With one recorded move and cursor `-1`, `redo_page` increments the
cursor before the physical move; if the move then raises, the cursor stays
incremented (`0` instead of `-1`). -/
theorem redo_failure_advances_cursor_counterexample :
    (redo_page (⟨some [0, 1], [(0, 1)], -1⟩ : AppState Nat) false).history_index ≠
      (⟨some [0, 1], [(0, 1)], -1⟩ : AppState Nat).history_index := by decide

/-- Claim C3 (amended): a failing reorder during `move_page` or `undo_page`
leaves the whole in-memory state (records and cursor) unchanged; a failing
reorder during `redo_page` leaves the record sequence unchanged but the cursor
may already have been incremented by one. -/
theorem failed_reorder_history_effect (α : Type) (st : AppState α) (s t : Int) :
    move_page st s t false = st ∧
    undo_page st false = st ∧
    (redo_page st false).move_history = st.move_history ∧
    ((redo_page st false).history_index = st.history_index ∨
      (redo_page st false).history_index = st.history_index + 1) :=
  ⟨move_page_false st s t, undo_page_false st,
    redo_page_move_history st false, redo_page_history_index st false⟩

/-- Claim C4 counterexample: closing a document does not clear the move
history or reset the cursor — `close_pdf` only clears `current_pdf`. -/
theorem close_pdf_retains_history_counterexample :
    ¬ ((close_pdf (⟨some [0, 1], [(0, 1)], 0⟩ : AppState Nat)).move_history = [] ∧
       (close_pdf (⟨some [0, 1], [(0, 1)], 0⟩ : AppState Nat)).history_index = -1) := by
  decide

/-- Claim C4 (amended): the move history is empty with cursor `-1` only in the
initial application state; opening a new document or closing the current one
leaves both the records and the cursor unchanged (they are never reset), and
the history persists across reorder operations on the same open document (a
successful reorder only truncates after the cursor and appends). -/
theorem history_lifecycle (α : Type) (st : AppState α) (d : List α) (s t : Int) (ok : Bool) :
    (init_state α).move_history = [] ∧ (init_state α).history_index = -1 ∧
    (close_pdf st).move_history = st.move_history ∧
    (close_pdf st).history_index = st.history_index ∧
    (load_and_display_pdf st d).move_history = st.move_history ∧
    (load_and_display_pdf st d).history_index = st.history_index ∧
    ((move_page st s t ok).move_history = st.move_history ∨
      (move_page st s t ok).move_history =
        (add_to_move_history st.move_history st.history_index s.toNat t.toNat).1) :=
  ⟨rfl, rfl, rfl, rfl, rfl, rfl, move_page_move_history_cases st s t ok⟩

/-- Claim C5: the predicate `-1 <= history_index < max (len history) 1` holds
in the initial state and is preserved by every operation that touches the
history: recording a move, undo (guarded decrement), redo (guarded increment)
and the full reorder flow, whether the physical move succeeds or fails. -/
theorem history_index_invariant (α : Type) :
    histInv (init_state α).move_history (init_state α).history_index ∧
    (∀ (h : List (Nat × Nat)) (i : Int) (s t : Nat), histInv h i →
      histInv (add_to_move_history h i s t).1 (add_to_move_history h i s t).2) ∧
    (∀ (st : AppState α) (ok : Bool), histInv st.move_history st.history_index →
      histInv (undo_page st ok).move_history (undo_page st ok).history_index) ∧
    (∀ (st : AppState α) (ok : Bool), histInv st.move_history st.history_index →
      histInv (redo_page st ok).move_history (redo_page st ok).history_index) ∧
    (∀ (st : AppState α) (s t : Int) (ok : Bool), histInv st.move_history st.history_index →
      histInv (move_page st s t ok).move_history (move_page st s t ok).history_index) := by
  refine ⟨?_, fun h i s t _ => histInv_add h i s t,
    fun st ok hI => histInv_undo st ok hI,
    fun st ok hI => histInv_redo st ok hI,
    fun st s t ok hI => histInv_move_page st s t ok hI⟩
  unfold histInv init_state
  norm_num

/-- Witness for C5: the preserved invariant applied to a concrete undo on a
one-record history. -/
theorem history_index_invariant_witness :
    histInv (undo_page (⟨some [0, 1], [(0, 1)], 0⟩ : AppState Nat) true).move_history
      (undo_page (⟨some [0, 1], [(0, 1)], 0⟩ : AppState Nat) true).history_index :=
  (history_index_invariant Nat).2.2.1 ⟨some [0, 1], [(0, 1)], 0⟩ true
    ⟨by decide, by decide⟩

/-- Claim C6: recording a move first discards all records strictly after the
cursor, then appends the new `(source, target)` record, and leaves the cursor
at the index of that new last record; `add_to_move_history` (reached only from
a successful `move_page`) is the only operation that changes the history's
record contents — undo, redo, close and open all leave the records intact. -/
theorem apply_move_truncates_then_appends (α : Type) :
    (∀ (h : List (Nat × Nat)) (i : Int) (s t : Nat), -1 ≤ i →
      (add_to_move_history h i s t).1 = pyTake h (i + 1) ++ [(s, t)] ∧
      (add_to_move_history h i s t).2 =
        ((add_to_move_history h i s t).1.length : Int) - 1) ∧
    (∀ (st : AppState α) (ok : Bool), (undo_page st ok).move_history = st.move_history) ∧
    (∀ (st : AppState α) (ok : Bool), (redo_page st ok).move_history = st.move_history) ∧
    (∀ (st : AppState α), (close_pdf st).move_history = st.move_history) ∧
    (∀ (st : AppState α) (d : List α),
      (load_and_display_pdf st d).move_history = st.move_history) ∧
    (∀ (st : AppState α) (s t : Int) (ok : Bool),
      (move_page st s t ok).move_history = st.move_history ∨
      (move_page st s t ok).move_history =
        (add_to_move_history st.move_history st.history_index s.toNat t.toNat).1) := by
  refine ⟨fun h i s t hi => ⟨?_, add_to_move_history_snd h i s t⟩,
    fun st ok => undo_page_move_history st ok,
    fun st ok => redo_page_move_history st ok,
    fun st => rfl, fun st d => rfl,
    fun st s t ok => move_page_move_history_cases st s t ok⟩
  rw [add_to_move_history_fst]
  by_cases hcut : i < (h.length : Int) - 1
  · rw [if_pos hcut]
  · rw [if_neg hcut]
    have h1 : pyTake h (i + 1) = h := by
      unfold pyTake
      rw [if_pos (by omega)]
      apply List.take_of_length_le
      omega
    rw [h1]

/-- Witness for C6: truncation-then-append on a concrete two-record history
with the cursor on the first record. -/
theorem apply_move_truncates_then_appends_witness :
    (add_to_move_history [(5, 6), (7, 8)] 0 1 2).1 =
      pyTake [(5, 6), (7, 8)] 1 ++ [(1, 2)] ∧
    (add_to_move_history [(5, 6), (7, 8)] 0 1 2).2 =
      ((add_to_move_history [(5, 6), (7, 8)] 0 1 2).1.length : Int) - 1 :=
  (apply_move_truncates_then_appends Nat).1 [(5, 6), (7, 8)] 0 1 2 (by decide)

/-! ### Parser helper lemmas -/

theorem sortedSet_perm_dedup (l : List Int) : (sortedSet l).Perm l.dedup :=
  List.perm_insertionSort _ _

theorem sortedSet_nodup (l : List Int) : (sortedSet l).Nodup :=
  ((sortedSet_perm_dedup l).nodup_iff).mpr l.nodup_dedup

theorem mem_sortedSet (l : List Int) (x : Int) : x ∈ sortedSet l ↔ x ∈ l := by
  rw [(sortedSet_perm_dedup l).mem_iff, List.mem_dedup]

theorem sortedSet_sorted_lt (l : List Int) : (sortedSet l).Sorted (· < ·) := by
  have hle : (sortedSet l).Sorted (· ≤ ·) := List.sorted_insertionSort _ _
  have hne : (sortedSet l).Pairwise (· ≠ ·) := sortedSet_nodup l
  exact (hle.and hne).imp fun hab => lt_of_le_of_ne hab.1 hab.2

theorem parseGroupList_forall₂ :
    ∀ (parts : List (List Char)) (gs : List (List Int)),
      parseGroupList parts = some gs →
      List.Forall₂ (fun p g => parseGroup p = some g) parts gs := by
  intro parts
  induction parts with
  | nil =>
    intro gs hg
    simp only [parseGroupList, Option.some.injEq] at hg
    subst hg
    exact List.Forall₂.nil
  | cons p ps ih =>
    intro gs hg
    simp only [parseGroupList] at hg
    cases hp : parseGroup p with
    | none => rw [hp] at hg; cases hg
    | some g =>
      cases hps : parseGroupList ps with
      | none => rw [hp, hps] at hg; cases hg
      | some gs0 =>
        rw [hp, hps] at hg
        simp only [Option.some.injEq] at hg
        subst hg
        exact List.Forall₂.cons hp (ih gs0 hps)

theorem parseItems_forall₂ :
    ∀ (sgms : List (List Char)) (pages : List Int),
      parseItems sgms = some pages →
      ∃ itemLists : List (List Int),
        List.Forall₂ (fun sgm xs => parseItem sgm = some xs) sgms itemLists ∧
        pages = itemLists.flatten := by
  intro sgms
  induction sgms with
  | nil =>
    intro pages hp
    simp only [parseItems, Option.some.injEq] at hp
    subst hp
    exact ⟨[], List.Forall₂.nil, rfl⟩
  | cons sgm rest ih =>
    intro pages hp
    simp only [parseItems] at hp
    cases hs : parseItem sgm with
    | none => rw [hs] at hp; cases hp
    | some xs =>
      cases hr : parseItems rest with
      | none => rw [hs, hr] at hp; cases hp
      | some ys =>
        rw [hs, hr] at hp
        simp only [Option.some.injEq] at hp
        subst hp
        obtain ⟨itemLists, hfa, hflat⟩ := ih ys hr
        exact ⟨xs :: itemLists, List.Forall₂.cons hs hfa, by simp [hflat]⟩

theorem parseGroup_eq_some (part : List Char) (g : List Int)
    (hg : parseGroup part = some g) :
    ∃ pages : List Int,
      parseItems (splitChar ',' part) = some pages ∧ g = sortedSet pages := by
  unfold parseGroup at hg
  cases hp : parseItems (splitChar ',' part) with
  | none => rw [hp] at hg; cases hg
  | some pages =>
    rw [hp] at hg
    have hg2 : sortedSet pages = g := Option.some.inj hg
    exact ⟨pages, rfl, hg2.symm⟩

theorem split_pdf_of_empty (n : Nat) (txt : String) (ht : pyStrip txt.toList = []) :
    split_pdf n txt = SplitResult.emptyInput := by
  unfold split_pdf
  rw [if_pos ht]

theorem split_pdf_of_parse_none (n : Nat) (txt : String)
    (ht : ¬ pyStrip txt.toList = []) (hpg : parseGroups (pyStrip txt.toList) = none) :
    split_pdf n txt = SplitResult.invalidInput := by
  unfold split_pdf
  rw [if_neg ht, hpg]

theorem split_pdf_of_parse_some (n : Nat) (txt : String) (gs : List (List Int))
    (ht : ¬ pyStrip txt.toList = []) (hpg : parseGroups (pyStrip txt.toList) = some gs) :
    split_pdf n txt =
      if (gs.flatten.any fun p => decide (p < 0) || decide ((n : Int) ≤ p)) = true then
        SplitResult.invalidInput
      else SplitResult.ok gs := by
  unfold split_pdf
  rw [if_neg ht, hpg]

theorem parseItem_range_vals (seg sa sb : List Char) (a b : Int)
    (hc : (pyStrip seg).contains '-' = true)
    (hsplit : splitChar '-' (pyStrip seg) = [sa, sb])
    (ha : pyInt sa = some a) (hb : pyInt sb = some b) :
    parseItem seg = some (intRange (a - 1) b) := by
  unfold parseItem
  rw [if_pos hc, hsplit]
  show (match pyInt sa, pyInt sb with
    | some start, some stop => some (intRange (start - 1) stop)
    | _, _ => none) = some (intRange (a - 1) b)
  rw [ha, hb]

/-! ### Remaining claims -/

/-- Claim C7: if any page index referenced by any parsed group lies outside
`[0, pageCount)`, the whole split is rejected with the invalid-page warning
before any output file is written; `split_pdf` reaches the file-writing stage
(`SplitResult.ok`) only when every index of every group is in range. -/
theorem split_rejects_out_of_range (n : Nat) (txt : String) :
    (∀ gs, split_pdf n txt = SplitResult.ok gs →
      ∀ g ∈ gs, ∀ p ∈ g, 0 ≤ p ∧ p < (n : Int)) ∧
    (∀ gs, parseGroups (pyStrip txt.toList) = some gs →
      (∃ g ∈ gs, ∃ p ∈ g, p < 0 ∨ (n : Int) ≤ p) →
      split_pdf n txt = SplitResult.invalidInput) := by
  constructor
  · intro gs hok g hg p hp
    by_cases ht : pyStrip txt.toList = []
    · rw [split_pdf_of_empty n txt ht] at hok
      cases hok
    · cases hpg : parseGroups (pyStrip txt.toList) with
      | none =>
        rw [split_pdf_of_parse_none n txt ht hpg] at hok
        cases hok
      | some gs0 =>
        rw [split_pdf_of_parse_some n txt gs0 ht hpg] at hok
        by_cases hany :
            (gs0.flatten.any fun p => decide (p < 0) || decide ((n : Int) ≤ p)) = true
        · rw [if_pos hany] at hok
          cases hok
        · rw [if_neg hany] at hok
          have hgs : gs0 = gs := by injection hok
          have hg0 : g ∈ gs0 := hgs.symm ▸ hg
          have hmem : p ∈ gs0.flatten := List.mem_flatten.mpr ⟨g, hg0, hp⟩
          simp only [List.any_eq_true, Bool.or_eq_true, decide_eq_true_eq, not_exists,
            not_and, not_or] at hany
          have := hany p hmem
          omega
  · intro gs hpg hex
    have ht : ¬ pyStrip txt.toList = [] := by
      intro h0
      rw [h0] at hpg
      have hnone : parseGroups ([] : List Char) = none := by decide
      rw [hnone] at hpg
      cases hpg
    rw [split_pdf_of_parse_some n txt gs ht hpg]
    have hany : (gs.flatten.any fun p => decide (p < 0) || decide ((n : Int) ≤ p)) = true := by
      obtain ⟨g, hg, p, hp, hcond⟩ := hex
      simp only [List.any_eq_true, Bool.or_eq_true, decide_eq_true_eq]
      exact ⟨p, List.mem_flatten.mpr ⟨g, hg, hp⟩, hcond⟩
    rw [if_pos hany]

/-- Witness for C7: the spec's own example — spec `"1,2"` on a 1-page
document is rejected with the invalid-page outcome before any file is
written. -/
theorem split_rejects_out_of_range_witness :
    split_pdf 1 "1,2" = SplitResult.invalidInput :=
  (split_rejects_out_of_range 1 "1,2").2 [[0, 1]] (by decide) (by decide)

/-- Claim C8: parsing splits the text on `;` into groups and each group on
`,` into items; every group's result collapses duplicates (set semantics) and
is listed in strictly ascending numeric order regardless of input order, its
members being exactly the pages contributed by the group's items. -/
theorem range_spec_parse_groups (txt : List Char) (gs : List (List Int))
    (hp : parseGroups txt = some gs) :
    List.Forall₂ (fun part g =>
      ∃ pages : List Int,
        parseItems (splitChar ',' part) = some pages ∧
        (∃ itemLists : List (List Int),
          List.Forall₂ (fun sgm xs => parseItem sgm = some xs)
            (splitChar ',' part) itemLists ∧
          pages = itemLists.flatten) ∧
        g.Sorted (· < ·) ∧ g.Nodup ∧ (∀ x, x ∈ g ↔ x ∈ pages))
      (splitChar ';' txt) gs := by
  refine (parseGroupList_forall₂ (splitChar ';' txt) gs hp).imp ?_
  intro part g hg
  obtain ⟨pages, hpages, hsort⟩ := parseGroup_eq_some part g hg
  refine ⟨pages, hpages, parseItems_forall₂ _ _ hpages, ?_, ?_, ?_⟩
  · rw [hsort]; exact sortedSet_sorted_lt pages
  · rw [hsort]; exact sortedSet_nodup pages
  · intro x; rw [hsort]; exact mem_sortedSet pages x

/-- Witness for C8 on the spec's example text `"1,4;2-3"`. -/
theorem range_spec_parse_groups_witness :
    List.Forall₂ (fun part g =>
      ∃ pages : List Int,
        parseItems (splitChar ',' part) = some pages ∧
        (∃ itemLists : List (List Int),
          List.Forall₂ (fun sgm xs => parseItem sgm = some xs)
            (splitChar ',' part) itemLists ∧
          pages = itemLists.flatten) ∧
        g.Sorted (· < ·) ∧ g.Nodup ∧ (∀ x, x ∈ g ↔ x ∈ pages))
      (splitChar ';' "1,4;2-3".toList) [[0, 3], [1, 2]] :=
  range_spec_parse_groups "1,4;2-3".toList [[0, 3], [1, 2]] (by decide)

/-- Claim C10: a descending range item `a-b` with `b < a` is not a syntax or
page-index error: it contributes the empty page set, and a group made only of
such items parses to the empty list and passes index validation vacuously, so
the split proceeds to the output stage. -/
theorem descending_range_is_empty :
    (∀ (seg sa sb : List Char) (a b : Int),
      (pyStrip seg).contains '-' = true →
      splitChar '-' (pyStrip seg) = [sa, sb] →
      pyInt sa = some a → pyInt sb = some b → b < a →
      parseItem seg = some []) ∧
    (∀ (n : Nat) (txt : String) (gs : List (List Int)),
      parseGroups (pyStrip txt.toList) = some gs →
      (∀ g ∈ gs, g = []) →
      pyStrip txt.toList ≠ [] →
      split_pdf n txt = SplitResult.ok gs) := by
  constructor
  · intro seg sa sb a b hc hsplit ha hb hab
    rw [parseItem_range_vals seg sa sb a b hc hsplit ha hb]
    have h0 : intRange (a - 1) b = [] := by
      unfold intRange
      have h1 : (b - (a - 1)).toNat = 0 := by omega
      rw [h1]
      rfl
    rw [h0]
  · intro n txt gs hpg hempty ht
    rw [split_pdf_of_parse_some n txt gs ht hpg]
    have hflat : gs.flatten = [] := List.flatten_eq_nil_iff.mpr hempty
    rw [hflat]
    rfl

/-- Witness for C10 at the concrete descending range `"5-2"`. -/
theorem descending_range_is_empty_witness :
    parseItem "5-2".toList = some [] ∧ split_pdf 3 "5-2" = SplitResult.ok [[]] :=
  ⟨descending_range_is_empty.1 "5-2".toList "5".toList "2".toList 5 2
      (by decide) (by decide) (by decide) (by decide) (by decide),
    descending_range_is_empty.2 3 "5-2" [[]] (by decide) (by decide) (by decide)⟩

end PDFMaster
